import Mathlib

/-!
# 5COIN balance engine — shallow embedding and verification

This file embeds the balance-mutation and transaction-ledger engine of
`src/backend/server.js` (routes `POST /api/swap`, `POST /api/bet`,
`POST /api/withdraw`, `POST /api/referral`, `POST /api/user/:userId/coins`
and the `bot.onText(/\/start/)` handler) and proves or refutes the frozen
claims about it.

Numeric model: JavaScript numbers are embedded as exact rationals with an
explicit NaN adjoined (`JNum`).  Decimal literals of the source are read as
exact rationals (`0.006 = 6/1000`, …).  The JS semantics the routes rely on
are modelled explicitly: a missing object key (`exchangeRates[c][c]`) is
`undefined`, arithmetic on `undefined`/NaN yields NaN, and every comparison
with NaN is false.  The Mongo store is a list of user documents; `save()`
writes the document's modified paths, and the transaction collection is an
append-only list.
-/

/-- A JavaScript number as it occurs in this engine: an exact rational, or
NaN (produced by arithmetic on `undefined`, e.g. a missing rate-table key). -/
inductive JNum where
  | num (q : ℚ)
  | nan
deriving DecidableEq, Repr

/-- JS `+` on numbers: NaN propagates. -/
def jadd : JNum → JNum → JNum
  | .num a, .num b => .num (a + b)
  | _, _ => .nan

/-- JS `-` on numbers: NaN propagates. -/
def jsub : JNum → JNum → JNum
  | .num a, .num b => .num (a - b)
  | _, _ => .nan

/-- JS `*` on numbers: NaN propagates (`x * undefined` is NaN). -/
def jmul : JNum → JNum → JNum
  | .num a, .num b => .num (a * b)
  | _, _ => .nan

/-- JS `<` on numbers: any comparison with NaN is false. -/
def jlt : JNum → JNum → Bool
  | .num a, .num b => decide (a < b)
  | _, _ => false

/-- JS `>=` against a rational constant: false when the left side is NaN. -/
def jge : JNum → ℚ → Bool
  | .num a, b => decide (b ≤ a)
  | .nan, _ => false

/-- The value is a real (non-NaN) number that is `≥ 0`. -/
def JNonneg : JNum → Prop
  | .num q => 0 ≤ q
  | .nan => False

/-- The value is a real (non-NaN) number that is `> 0`. -/
def JPos : JNum → Prop
  | .num q => 0 < q
  | .nan => False

instance : DecidablePred JNonneg
  | .num q => inferInstanceAs (Decidable (0 ≤ q))
  | .nan => inferInstanceAs (Decidable False)

instance : DecidablePred JPos
  | .num q => inferInstanceAs (Decidable (0 < q))
  | .nan => inferInstanceAs (Decidable False)

/-- The five currency symbols of the `coins` subdocument. -/
inductive CoinType where
  | nc | sc | gc | dc | ska
deriving DecidableEq, Repr

/-- The `coins` subdocument of a user document. -/
structure Coins where
  nc : JNum
  sc : JNum
  gc : JNum
  dc : JNum
  ska : JNum
deriving DecidableEq, Repr

/-- Read `user.coins[coinType]`. -/
def getCoin (c : Coins) : CoinType → JNum
  | .nc => c.nc
  | .sc => c.sc
  | .gc => c.gc
  | .dc => c.dc
  | .ska => c.ska

/-- Write `user.coins[coinType] = v`. -/
def setCoin (c : Coins) : CoinType → JNum → Coins
  | .nc, v => { c with nc := v }
  | .sc, v => { c with sc := v }
  | .gc, v => { c with gc := v }
  | .dc, v => { c with dc := v }
  | .ska, v => { c with ska := v }

/-- A user document (mongoose `userSchema`). -/
structure UserAccount where
  userId : Nat
  username : Option String
  firstName : Option String
  lastName : Option String
  referralCode : String
  referredBy : Option String
  coins : Coins
  referrals : JNum
  earned : JNum
deriving DecidableEq, Repr

/-- The kind-specific `details` payload of a transaction document. -/
inductive TxDetails where
  | swapD (fromCoin toCoin : CoinType) (amount received fee : JNum)
  | betD (coinType : CoinType) (amount : JNum) (avatar : String)
      (win : Bool) (resultAmount : JNum)
  | withdrawalD (coinType : CoinType) (amount : JNum) (method details : String)
      (etbValue fee received : JNum)
  | referralD (referredUserId : Nat) (bonus : JNum)
deriving DecidableEq, Repr

/-- A transaction document (mongoose `transactionSchema`). -/
structure Transaction where
  userId : Nat
  type : String
  details : TxDetails
deriving DecidableEq, Repr

/-- The Mongo store: the `users` collection and the append-only
`transactions` collection. -/
structure DB where
  users : List UserAccount
  transactions : List Transaction
deriving DecidableEq, Repr

/-- `User.findOne({ userId })`. -/
def findUser (db : DB) (userId : Nat) : Option UserAccount :=
  db.users.find? (fun u => u.userId == userId)

/-- `User.findOne({ referralCode })`. -/
def findByReferralCode (db : DB) (code : String) : Option UserAccount :=
  db.users.find? (fun u => u.referralCode == code)

/-- `user.save()`: persist the (modified) document under its `userId`. -/
def saveUser (users : List UserAccount) (u : UserAccount) : List UserAccount :=
  users.map (fun v => if v.userId == u.userId then u else v)

/-- JS truthiness of an optional string (`null` and `''` are falsy). -/
def strTruthy : Option String → Bool
  | none => false
  | some s => !s.isEmpty

/-- The `exchangeRates` object of `POST /api/swap`.  The diagonal keys are
absent from the source object, so `exchangeRates[c][c]` is `undefined`:
that is `none` here. -/
def exchangeRates : CoinType → CoinType → Option ℚ
  | .nc, .sc => some 10
  | .nc, .gc => some 100
  | .nc, .dc => some 1000
  | .nc, .ska => some 10000
  | .sc, .nc => some (1/10)
  | .sc, .gc => some 10
  | .sc, .dc => some 100
  | .sc, .ska => some 1000
  | .gc, .nc => some (1/100)
  | .gc, .sc => some (1/10)
  | .gc, .dc => some 10
  | .gc, .ska => some 100
  | .dc, .nc => some (1/1000)
  | .dc, .sc => some (1/100)
  | .dc, .gc => some (1/10)
  | .dc, .ska => some 10
  | .ska, .nc => some (1/10000)
  | .ska, .sc => some (1/1000)
  | .ska, .gc => some (1/100)
  | .ska, .dc => some (1/10)
  | _, _ => none

/-- `const transactionFee = 0.006; // 0.6%` -/
def transactionFee : ℚ := 6/1000

/-- The `coinValues` table of `POST /api/withdraw` (ETB per unit). -/
def coinValues : CoinType → ℚ
  | .nc => 2
  | .sc => 2000
  | .gc => 20000
  | .dc => 200000
  | .ska => 2000000

/-- The referral bonus constant `0.0005` of `POST /api/referral` and the
`/start` handler. -/
def referralBonus : ℚ := 5/10000

/-- Successful response body of `POST /api/swap`. -/
structure SwapOk where
  received : JNum
  fee : JNum
  newBalance : Coins
deriving DecidableEq, Repr

/-- `POST /api/swap`.  The fee, rate and `received` are computed before the
user is fetched; a `null` user makes `user.coins[fromCoin]` throw (caught as
a 500 response, nothing saved).  The balance check is JS `<` on the current
`fromCoin` balance; on success the `fromCoin` debit and `toCoin` credit are
applied in source order (they hit the same field when `fromCoin == toCoin`),
the user is saved and one `swap` transaction is appended. -/
def apiSwap (db : DB) (userId : Nat) (fromCoin toCoin : CoinType)
    (amount : JNum) : Except String SwapOk × DB :=
  let fee := jmul amount (.num transactionFee)
  let rate : JNum := match exchangeRates fromCoin toCoin with
    | some r => .num r
    | none => .nan
  let received := jmul (jsub amount fee) rate
  match findUser db userId with
  | none => (.error "Cannot read properties of null (reading coins)", db)
  | some user =>
    if jlt (getCoin user.coins fromCoin) amount then
      (.error "Insufficient balance", db)
    else
      let coins1 := setCoin user.coins fromCoin
        (jsub (getCoin user.coins fromCoin) amount)
      let coins2 := setCoin coins1 toCoin (jadd (getCoin coins1 toCoin) received)
      let user' := { user with coins := coins2 }
      let tx : Transaction :=
        ⟨userId, "swap", .swapD fromCoin toCoin amount received fee⟩
      (.ok ⟨received, fee, coins2⟩,
       ⟨saveUser db.users user', db.transactions ++ [tx]⟩)

/-- Successful response body of `POST /api/bet`. -/
structure BetOk where
  win : Bool
  resultAmount : JNum
  newBalance : Coins
deriving DecidableEq, Repr

/-- `POST /api/bet`.  `rand cursor` models the `Math.random() > 0.5` draw;
the cursor advances exactly when the draw is evaluated, which in the source
happens only after the balance check passes.  On a win the stake is not
debited: the balance is only credited `amount * 1.8`. -/
def apiBet (db : DB) (userId : Nat) (coinType : CoinType) (amount : JNum)
    (avatar : String) (rand : Nat → Bool) (cursor : Nat) :
    Except String BetOk × DB × Nat :=
  match findUser db userId with
  | none => (.error "Cannot read properties of null (reading coins)", db, cursor)
  | some user =>
    if jlt (getCoin user.coins coinType) amount then
      (.error "Insufficient balance", db, cursor)
    else
      let win := rand cursor
      if win then
        let winAmount := jmul amount (.num (18/10))
        let coins' := setCoin user.coins coinType
          (jadd (getCoin user.coins coinType) winAmount)
        let user' := { user with coins := coins' }
        let tx : Transaction :=
          ⟨userId, "bet", .betD coinType amount avatar true winAmount⟩
        (.ok ⟨true, winAmount, coins'⟩,
         ⟨saveUser db.users user', db.transactions ++ [tx]⟩, cursor + 1)
      else
        let coins' := setCoin user.coins coinType
          (jsub (getCoin user.coins coinType) amount)
        let user' := { user with coins := coins' }
        let tx : Transaction :=
          ⟨userId, "bet", .betD coinType amount avatar false
            (jsub (.num 0) amount)⟩
        (.ok ⟨false, jsub (.num 0) amount, coins'⟩,
         ⟨saveUser db.users user', db.transactions ++ [tx]⟩, cursor + 1)

/-- Successful response body of `POST /api/withdraw` (the human-readable
`message` string is presentation only and not modelled). -/
structure WithdrawOk where
  received : JNum
  fee : JNum
deriving DecidableEq, Repr

/-- `POST /api/withdraw`: `etbValue = amount * coinValues[coinType]`;
`fee = etbValue >= 25 ? 2 : etbValue * 0.08`; `received = etbValue - fee`;
the balance is debited by `amount`, the user saved, one `withdrawal`
transaction appended. -/
def apiWithdraw (db : DB) (userId : Nat) (coinType : CoinType) (amount : JNum)
    (method details : String) : Except String WithdrawOk × DB :=
  match findUser db userId with
  | none => (.error "Cannot read properties of null (reading coins)", db)
  | some user =>
    if jlt (getCoin user.coins coinType) amount then
      (.error "Insufficient balance", db)
    else
      let etbValue := jmul amount (.num (coinValues coinType))
      let fee : JNum := if jge etbValue 25 then .num 2
        else jmul etbValue (.num (8/100))
      let received := jsub etbValue fee
      let coins' := setCoin user.coins coinType
        (jsub (getCoin user.coins coinType) amount)
      let user' := { user with coins := coins' }
      let tx : Transaction :=
        ⟨userId, "withdrawal",
         .withdrawalD coinType amount method details etbValue fee received⟩
      (.ok ⟨received, fee⟩,
       ⟨saveUser db.users user', db.transactions ++ [tx]⟩)

/-- `referrer.save()` after the bonus increments.  Mongoose `save()` writes
the document's modified paths (`referrals`, `earned`, `coins.nc`), whose new
values were computed from the document as fetched; all other stored paths
are untouched. -/
def applyReferrerBonus (users : List UserAccount) (referrer : UserAccount) :
    List UserAccount :=
  users.map (fun v =>
    if v.userId == referrer.userId then
      { v with
        referrals := jadd referrer.referrals (.num 1),
        earned := jadd referrer.earned (.num referralBonus),
        coins := setCoin v.coins .nc
          (jadd (getCoin referrer.coins .nc) (.num referralBonus)) }
    else v)

/-- `POST /api/referral`: resolve the code to its owner (`referrer`), fetch
the acting user (a `null` user throws on `user.referredBy`), reject when
`user.referredBy` is truthy, otherwise bind `referredBy`, save the user,
apply and save the referrer's bonus, and append one `referral` transaction.
There is no check that the code belongs to someone other than the acting
user. -/
def apiReferral (db : DB) (userId : Nat) (referralCode : String) :
    Except String JNum × DB :=
  match findByReferralCode db referralCode with
  | none => (.error "Invalid referral code", db)
  | some referrer =>
    match findUser db userId with
    | none => (.error "Cannot read properties of null (reading referredBy)", db)
    | some user =>
      if strTruthy user.referredBy then
        (.error "Already used a referral code", db)
      else
        let users1 := saveUser db.users { user with referredBy := some referralCode }
        let users2 := applyReferrerBonus users1 referrer
        let tx : Transaction :=
          ⟨referrer.userId, "referral", .referralD userId (.num referralBonus)⟩
        (.ok (.num referralBonus), ⟨users2, db.transactions ++ [tx]⟩)

/-- `POST /api/user/:userId/coins`: `findOneAndUpdate` with
`$inc: { ['coins.' + coinType]: amount }` — no validation of any kind; a
missing user yields `null` and a 200 response with body `null`. -/
def apiUpdateCoins (db : DB) (userId : Nat) (coinType : CoinType)
    (amount : JNum) : Except String (Option UserAccount) × DB :=
  match findUser db userId with
  | none => (.ok none, db)
  | some user =>
    let coins' := setCoin user.coins coinType
      (jadd (getCoin user.coins coinType) amount)
    let user' := { user with coins := coins' }
    (.ok (some user'), ⟨saveUser db.users user', db.transactions⟩)

/-- `toUpperCase` on the characters `Nat.toDigits 16` can produce: the hex
letters `a`-`f` map to `A`-`F`, digits are unchanged. -/
def hexUpperChar (c : Char) : Char :=
  if c = 'a' then 'A' else if c = 'b' then 'B' else if c = 'c' then 'C'
  else if c = 'd' then 'D' else if c = 'e' then 'E' else if c = 'f' then 'F'
  else c

/-- The self-referral code assigned at account creation:
`'5COIN-' + userId.toString(16).toUpperCase()`. -/
def mkReferralCode (userId : Nat) : String :=
  "5COIN-" ++ String.mk ((Nat.toDigits 16 userId).map hexUpperChar)

/-- What the `/start` handler sends back (ignoring the game-link message). -/
inductive StartReply where
  | welcomeNew (code : String)
  | welcomeBack (ncBalance : JNum)
deriving DecidableEq, Repr

/-- The `bot.onText(/\/start(.+)?/)` handler.  An existing user only gets a
welcome-back message.  Otherwise a new user document is built (zero coins,
`referredBy` defaulting to `null`); when a truthy referral code was supplied
and resolves to an existing user, `referredBy` is set and the referrer's
bonus is applied and saved — with no transaction recorded and no error when
the code resolves to nobody — and finally the new user is saved. -/
def botStart (db : DB) (userId : Nat)
    (username firstName lastName : Option String)
    (refCode : Option String) : StartReply × DB :=
  match findUser db userId with
  | some user => (.welcomeBack (getCoin user.coins .nc), db)
  | none =>
    let baseUser : UserAccount :=
      { userId := userId, username := username, firstName := firstName,
        lastName := lastName, referralCode := mkReferralCode userId,
        referredBy := none,
        coins := ⟨.num 0, .num 0, .num 0, .num 0, .num 0⟩,
        referrals := .num 0, earned := .num 0 }
    let step : UserAccount × List UserAccount :=
      if strTruthy refCode then
        match refCode with
        | some code =>
          match findByReferralCode db code with
          | some referrer =>
            ({ baseUser with referredBy := some code },
             applyReferrerBonus db.users referrer)
          | none => (baseUser, db.users)
        | none => (baseUser, db.users)
      else (baseUser, db.users)
    (.welcomeNew baseUser.referralCode,
     ⟨step.2 ++ [step.1], db.transactions⟩)

/-- One call of the mutating surface, for stating invariants over operation
sequences. -/
inductive Op where
  | swapOp (userId : Nat) (fromCoin toCoin : CoinType) (amount : JNum)
  | betOp (userId : Nat) (coinType : CoinType) (amount : JNum) (avatar : String)
  | withdrawOp (userId : Nat) (coinType : CoinType) (amount : JNum)
      (method details : String)
  | referralOp (userId : Nat) (code : String)
  | coinsOp (userId : Nat) (coinType : CoinType) (amount : JNum)
deriving DecidableEq, Repr

/-- Run one operation against the store (the `Nat` component is the cursor
into the random stream used by `/api/bet`). -/
def runOp (rand : Nat → Bool) (s : DB × Nat) (op : Op) : DB × Nat :=
  match op with
  | .swapOp u f t a => ((apiSwap s.1 u f t a).2, s.2)
  | .betOp u c a av => (apiBet s.1 u c a av rand s.2).2
  | .withdrawOp u c a m d => ((apiWithdraw s.1 u c a m d).2, s.2)
  | .referralOp u code => ((apiReferral s.1 u code).2, s.2)
  | .coinsOp u c a => ((apiUpdateCoins s.1 u c a).2, s.2)

/-- Run a sequence of operations. -/
def runOps (rand : Nat → Bool) (s : DB × Nat) (ops : List Op) : DB × Nat :=
  ops.foldl (runOp rand) s

/-- All five balances of a coins subdocument are real numbers `≥ 0`. -/
def CoinsNonneg (c : Coins) : Prop :=
  JNonneg c.nc ∧ JNonneg c.sc ∧ JNonneg c.gc ∧ JNonneg c.dc ∧ JNonneg c.ska

/-- Every stored user's balances are nonnegative. -/
def UsersNonneg (users : List UserAccount) : Prop :=
  ∀ u ∈ users, CoinsNonneg u.coins

/-- Every balance of every user in the store is nonnegative. -/
def DBNonneg (db : DB) : Prop := UsersNonneg db.users

instance (c : Coins) : Decidable (CoinsNonneg c) :=
  inferInstanceAs (Decidable (_ ∧ _ ∧ _ ∧ _ ∧ _))

instance (users : List UserAccount) : Decidable (UsersNonneg users) :=
  inferInstanceAs (Decidable (∀ u ∈ users, CoinsNonneg u.coins))

instance (db : DB) : Decidable (DBNonneg db) :=
  inferInstanceAs (Decidable (UsersNonneg db.users))

/-- The per-operation restriction under which (and only under which) the
engine preserves nonnegativity: positive finite amounts, distinct swap
currencies, nonnegative raw coin updates. -/
def ValidOp : Op → Prop
  | .swapOp _ f t a => f ≠ t ∧ JPos a
  | .betOp _ _ a _ => JPos a
  | .withdrawOp _ _ a _ _ => JPos a
  | .referralOp _ _ => True
  | .coinsOp _ _ a => JNonneg a

instance : DecidablePred ValidOp
  | .swapOp _ f t a => inferInstanceAs (Decidable (f ≠ t ∧ JPos a))
  | .betOp _ _ a _ => inferInstanceAs (Decidable (JPos a))
  | .withdrawOp _ _ a _ _ => inferInstanceAs (Decidable (JPos a))
  | .referralOp _ _ => inferInstanceAs (Decidable True)
  | .coinsOp _ _ a => inferInstanceAs (Decidable (JNonneg a))

theorem getCoin_setCoin (c : Coins) (t t' : CoinType) (v : JNum) :
    getCoin (setCoin c t v) t' = if t' = t then v else getCoin c t' := by
  cases t <;> cases t' <;> simp [getCoin, setCoin]

theorem coinsNonneg_get {c : Coins} (hc : CoinsNonneg c) (t : CoinType) :
    JNonneg (getCoin c t) := by
  obtain ⟨h1, h2, h3, h4, h5⟩ := hc
  cases t <;> assumption

theorem coinsNonneg_setCoin {c : Coins} {t : CoinType} {v : JNum}
    (hc : CoinsNonneg c) (hv : JNonneg v) : CoinsNonneg (setCoin c t v) := by
  obtain ⟨h1, h2, h3, h4, h5⟩ := hc
  cases t <;> exact ⟨by assumption, by assumption, by assumption,
    by assumption, by assumption⟩

theorem usersNonneg_saveUser {users : List UserAccount} {u : UserAccount}
    (h : UsersNonneg users) (hu : CoinsNonneg u.coins) :
    UsersNonneg (saveUser users u) := by
  intro v hv
  simp only [saveUser, List.mem_map] at hv
  obtain ⟨w, hw, rfl⟩ := hv
  split
  · exact hu
  · exact h w hw

theorem usersNonneg_applyReferrerBonus {users : List UserAccount}
    {referrer : UserAccount} (h : UsersNonneg users)
    (hb : JNonneg (jadd (getCoin referrer.coins .nc) (.num referralBonus))) :
    UsersNonneg (applyReferrerBonus users referrer) := by
  intro v hv
  simp only [applyReferrerBonus, List.mem_map] at hv
  obtain ⟨w, hw, rfl⟩ := hv
  split
  · exact coinsNonneg_setCoin (h w hw) hb
  · exact h w hw

theorem mem_of_findUser {db : DB} {uid : Nat} {u : UserAccount}
    (h : findUser db uid = some u) : u ∈ db.users :=
  List.mem_of_find?_eq_some h

theorem userId_of_findUser {db : DB} {uid : Nat} {u : UserAccount}
    (h : findUser db uid = some u) : u.userId = uid := by
  have := List.find?_some h
  simpa using this

theorem mem_of_findByReferralCode {db : DB} {code : String} {u : UserAccount}
    (h : findByReferralCode db code = some u) : u ∈ db.users :=
  List.mem_of_find?_eq_some h

theorem code_of_findByReferralCode {db : DB} {code : String} {u : UserAccount}
    (h : findByReferralCode db code = some u) : u.referralCode = code := by
  have := List.find?_some h
  simpa using this

theorem exchangeRates_isSome :
    ∀ f t : CoinType, f = t ∨ (exchangeRates f t).isSome := by
  intro f t
  cases f <;> cases t <;> simp [exchangeRates]

theorem exchangeRates_getD_pos :
    ∀ f t : CoinType, 0 < (exchangeRates f t).getD 1 := by
  intro f t
  cases f <;> cases t <;> norm_num [exchangeRates]

theorem exchangeRates_reciprocal :
    ∀ f t : CoinType, f ≠ t →
      (exchangeRates f t).getD 1 * (exchangeRates t f).getD 1 = 1 := by
  intro f t h
  cases f <;> cases t <;> first
    | exact absurd rfl h
    | norm_num [exchangeRates]

theorem exchangeRates_offdiag {f t : CoinType} (h : f ≠ t) :
    ∃ r : ℚ, exchangeRates f t = some r ∧ 0 < r := by
  rcases exchangeRates_isSome f t with heq | hsome
  · exact absurd heq h
  · obtain ⟨r, hr⟩ := Option.isSome_iff_exists.mp hsome
    refine ⟨r, hr, ?_⟩
    have := exchangeRates_getD_pos f t
    rwa [hr, Option.getD_some] at this

theorem jadd_num (a b : ℚ) : jadd (.num a) (.num b) = .num (a + b) := rfl

theorem jsub_num (a b : ℚ) : jsub (.num a) (.num b) = .num (a - b) := rfl

theorem jmul_num (a b : ℚ) : jmul (.num a) (.num b) = .num (a * b) := rfl

theorem jadd_nonneg {x y : JNum} (hx : JNonneg x) (hy : JNonneg y) :
    JNonneg (jadd x y) := by
  cases x with
  | nan => exact hx.elim
  | num a =>
    cases y with
    | nan => exact hy.elim
    | num b => exact add_nonneg hx hy

theorem dbNonneg_apiSwap {db : DB} (u : Nat) {f t : CoinType} {q : ℚ}
    (hft : f ≠ t) (hq : 0 < q) (h : DBNonneg db) :
    DBNonneg (apiSwap db u f t (.num q)).2 := by
  obtain ⟨r, hr, hrpos⟩ := exchangeRates_offdiag hft
  rcases hfind : findUser db u with _ | user
  · simpa only [apiSwap, hfind] using h
  · have hcu : CoinsNonneg user.coins := h user (mem_of_findUser hfind)
    have hcf := coinsNonneg_get hcu f
    rcases hb : getCoin user.coins f with b | _
    · rw [hb] at hcf
      have hb0 : (0:ℚ) ≤ b := hcf
      by_cases hlt : b < q
      · simpa only [apiSwap, hfind, hb, hr, jlt, decide_eq_true_eq,
          if_pos hlt] using h
      · have hfee : (0:ℚ) ≤ (q - q * transactionFee) * r := by
          have h1 : (0:ℚ) ≤ q - q * transactionFee := by
            rw [transactionFee]; nlinarith
          exact mul_nonneg h1 hrpos.le
        have hrec : JNonneg (jmul (jsub (.num q) (jmul (.num q)
            (.num transactionFee))) (.num r)) := by
          simpa only [jmul_num, jsub_num] using hfee
        have hsub : JNonneg (jsub (.num b) (.num q)) := by
          simpa only [jsub_num] using sub_nonneg.mpr (not_lt.mp hlt)
        have hset := coinsNonneg_setCoin (t := f) hcu hsub
        simp only [apiSwap, hfind, hb, hr, jlt, decide_eq_true_eq, if_neg hlt]
        exact usersNonneg_saveUser h
          (coinsNonneg_setCoin hset (jadd_nonneg (coinsNonneg_get hset t) hrec))
    · rw [hb] at hcf
      exact hcf.elim

theorem dbNonneg_apiBet {db : DB} (u : Nat) {c : CoinType} {q : ℚ}
    (av : String) (rand : Nat → Bool) (cur : Nat)
    (hq : 0 < q) (h : DBNonneg db) :
    DBNonneg (apiBet db u c (.num q) av rand cur).2.1 := by
  rcases hfind : findUser db u with _ | user
  · simpa only [apiBet, hfind] using h
  · have hcu : CoinsNonneg user.coins := h user (mem_of_findUser hfind)
    have hcf := coinsNonneg_get hcu c
    rcases hb : getCoin user.coins c with b | _
    · rw [hb] at hcf
      have hb0 : (0:ℚ) ≤ b := hcf
      by_cases hlt : b < q
      · simpa only [apiBet, hfind, hb, jlt, decide_eq_true_eq,
          if_pos hlt] using h
      · have hwinval : JNonneg (jadd (.num b) (jmul (.num q) (.num (18/10)))) := by
          simp only [jmul_num, jadd_num]
          show (0:ℚ) ≤ b + q * (18/10)
          nlinarith
        have hlossval : JNonneg (jsub (.num b) (.num q)) := by
          simpa only [jsub_num] using sub_nonneg.mpr (not_lt.mp hlt)
        cases hwin : rand cur with
        | true =>
          simp only [apiBet, hfind, hb, jlt, decide_eq_true_eq, if_neg hlt,
            hwin, if_true]
          exact usersNonneg_saveUser h (coinsNonneg_setCoin hcu hwinval)
        | false =>
          simp only [apiBet, hfind, hb, jlt, decide_eq_true_eq, if_neg hlt,
            hwin, if_false]
          exact usersNonneg_saveUser h (coinsNonneg_setCoin hcu hlossval)
    · rw [hb] at hcf
      exact hcf.elim

theorem dbNonneg_apiWithdraw {db : DB} (u : Nat) {c : CoinType} {q : ℚ}
    (method details : String) (hq : 0 < q) (h : DBNonneg db) :
    DBNonneg (apiWithdraw db u c (.num q) method details).2 := by
  rcases hfind : findUser db u with _ | user
  · simpa only [apiWithdraw, hfind] using h
  · have hcu : CoinsNonneg user.coins := h user (mem_of_findUser hfind)
    have hcf := coinsNonneg_get hcu c
    rcases hb : getCoin user.coins c with b | _
    · rw [hb] at hcf
      by_cases hlt : b < q
      · simpa only [apiWithdraw, hfind, hb, jlt, decide_eq_true_eq,
          if_pos hlt] using h
      · have hsub : JNonneg (jsub (.num b) (.num q)) := by
          simpa only [jsub_num] using sub_nonneg.mpr (not_lt.mp hlt)
        simp only [apiWithdraw, hfind, hb, jlt, decide_eq_true_eq, if_neg hlt]
        exact usersNonneg_saveUser h (coinsNonneg_setCoin hcu hsub)
    · rw [hb] at hcf
      exact hcf.elim

theorem dbNonneg_apiReferral {db : DB} (u : Nat) (code : String)
    (h : DBNonneg db) : DBNonneg (apiReferral db u code).2 := by
  rcases hrefr : findByReferralCode db code with _ | referrer
  · simpa only [apiReferral, hrefr] using h
  · rcases hfind : findUser db u with _ | user
    · simpa only [apiReferral, hrefr, hfind] using h
    · cases htr : strTruthy user.referredBy with
      | true =>
        simpa only [apiReferral, hrefr, hfind, htr, if_true] using h
      | false =>
        have hcu : CoinsNonneg user.coins := h user (mem_of_findUser hfind)
        have hbonus : JNonneg (jadd (getCoin referrer.coins .nc)
            (.num referralBonus)) := by
          refine jadd_nonneg
            (coinsNonneg_get (h referrer (mem_of_findByReferralCode hrefr)) .nc) ?_
          show (0:ℚ) ≤ referralBonus
          norm_num [referralBonus]
        simp only [apiReferral, hrefr, hfind, htr, if_false]
        exact usersNonneg_applyReferrerBonus (usersNonneg_saveUser h hcu) hbonus

theorem dbNonneg_apiUpdateCoins {db : DB} (u : Nat) {c : CoinType} {q : ℚ}
    (hq : 0 ≤ q) (h : DBNonneg db) :
    DBNonneg (apiUpdateCoins db u c (.num q)).2 := by
  rcases hfind : findUser db u with _ | user
  · simpa only [apiUpdateCoins, hfind] using h
  · have hcu : CoinsNonneg user.coins := h user (mem_of_findUser hfind)
    simp only [apiUpdateCoins, hfind]
    exact usersNonneg_saveUser h
      (coinsNonneg_setCoin hcu (jadd_nonneg (coinsNonneg_get hcu c) hq))

theorem dbNonneg_runOp (rand : Nat → Bool) (s : DB × Nat) (op : Op)
    (h : DBNonneg s.1) (hop : ValidOp op) : DBNonneg (runOp rand s op).1 := by
  cases op with
  | swapOp u f t a =>
    obtain ⟨hft, hpos⟩ := hop
    rcases a with q | _
    · exact dbNonneg_apiSwap u hft hpos h
    · exact hpos.elim
  | betOp u c a av =>
    rcases a with q | _
    · exact dbNonneg_apiBet u av rand s.2 hop h
    · exact hop.elim
  | withdrawOp u c a m d =>
    rcases a with q | _
    · exact dbNonneg_apiWithdraw u m d hop h
    · exact hop.elim
  | referralOp u code => exact dbNonneg_apiReferral u code h
  | coinsOp u c a =>
    rcases a with q | _
    · exact dbNonneg_apiUpdateCoins u hop h
    · exact hop.elim

theorem dbNonneg_runOps (rand : Nat → Bool) (ops : List Op) :
    ∀ s : DB × Nat, DBNonneg s.1 → (∀ op ∈ ops, ValidOp op) →
      DBNonneg (runOps rand s ops).1 := by
  induction ops with
  | nil => intro s h _; exact h
  | cons op rest ih =>
    intro s h hops
    exact ih _ (dbNonneg_runOp rand s op h (hops op (List.mem_cons_self op rest)))
      (fun o ho => hops o (List.mem_cons_of_mem _ ho))

/-- The `received` value computed by `POST /api/swap`:
`(amount - amount * 0.006) * exchangeRates[from][to]`. -/
def swapReceived (fromCoin toCoin : CoinType) (amount : JNum) : JNum :=
  jmul (jsub amount (jmul amount (.num transactionFee)))
    (match exchangeRates fromCoin toCoin with
      | some r => .num r
      | none => .nan)

/-- The coins subdocument after the two balance writes of `POST /api/swap`
(`coins[fromCoin] -= amount; coins[toCoin] += received`). -/
def swapCoins (c : Coins) (fromCoin toCoin : CoinType)
    (amount received : JNum) : Coins :=
  let c1 := setCoin c fromCoin (jsub (getCoin c fromCoin) amount)
  setCoin c1 toCoin (jadd (getCoin c1 toCoin) received)

theorem apiSwap_ok {db : DB} {uid : Nat} {f t : CoinType}
    {user : UserAccount} {amount : JNum}
    (hfind : findUser db uid = some user)
    (hnlt : jlt (getCoin user.coins f) amount = false) :
    apiSwap db uid f t amount =
      (.ok ⟨swapReceived f t amount, jmul amount (.num transactionFee),
          swapCoins user.coins f t amount (swapReceived f t amount)⟩,
       ⟨saveUser db.users
          { user with coins :=
              swapCoins user.coins f t amount (swapReceived f t amount) },
        db.transactions ++ [⟨uid, "swap", .swapD f t amount
          (swapReceived f t amount) (jmul amount (.num transactionFee))⟩]⟩) := by
  simp only [apiSwap, hfind, hnlt, Bool.false_eq_true, if_false,
    swapReceived, swapCoins]

theorem find?_saveUser {users : List UserAccount} {uid : Nat}
    {user user' : UserAccount}
    (h : users.find? (fun v => v.userId == uid) = some user)
    (h2 : user'.userId = uid) :
    (saveUser users user').find? (fun v => v.userId == uid) = some user' := by
  induction users with
  | nil => simp at h
  | cons w ws ih =>
    simp only [saveUser, List.map_cons]
    by_cases hw : w.userId = uid
    · have hcond : (w.userId == user'.userId) = true := by simp [hw, h2]
      rw [if_pos hcond]
      exact List.find?_cons_of_pos _ (by simp [h2])
    · have hcond : ¬ ((w.userId == user'.userId) = true) := by
        simp [h2]
        exact hw
      have hskip : (w.userId == uid) = false := by
        simp
        exact hw
      rw [List.find?_cons, hskip] at h
      rw [if_neg hcond, List.find?_cons, hskip]
      exact ih h

theorem findUser_saveUser {db : DB} {uid : Nat} {user user' : UserAccount}
    {txs : List Transaction}
    (h : findUser db uid = some user) (h2 : user'.userId = user.userId) :
    findUser ⟨saveUser db.users user', txs⟩ uid = some user' :=
  find?_saveUser h (h2.trans (userId_of_findUser h))

/-- A minimal stored user document for concrete instantiations. -/
def sampleUser (id : Nat) (c : Coins) : UserAccount :=
  { userId := id, username := none, firstName := none, lastName := none,
    referralCode := mkReferralCode id, referredBy := none, coins := c,
    referrals := .num 0, earned := .num 0 }

/-- C8: for `0 < amount ≤ balance`, `POST /api/withdraw` computes
`fiatValue = amount * coinValues[currency]`, `fee = 2` when `fiatValue >= 25`
and `fiatValue * 0.08` otherwise, `received = fiatValue - fee`, debits the
currency balance by exactly `amount`, and records one withdrawal
transaction carrying those numbers. -/
theorem withdraw_formula {db : DB} {uid : Nat} {c : CoinType} {q b : ℚ}
    {user : UserAccount} (method details : String)
    (hfind : findUser db uid = some user)
    (hb : getCoin user.coins c = .num b)
    (hq : 0 < q) (hle : q ≤ b) :
    apiWithdraw db uid c (.num q) method details =
      (.ok ⟨.num (q * coinValues c -
          (if 25 ≤ q * coinValues c then 2 else q * coinValues c * (8/100))),
        .num (if 25 ≤ q * coinValues c then 2 else q * coinValues c * (8/100))⟩,
       ⟨saveUser db.users
          { user with coins := setCoin user.coins c (.num (b - q)) },
        db.transactions ++ [⟨uid, "withdrawal",
          .withdrawalD c (.num q) method details (.num (q * coinValues c))
            (.num (if 25 ≤ q * coinValues c then 2 else q * coinValues c * (8/100)))
            (.num (q * coinValues c -
              (if 25 ≤ q * coinValues c then 2
                else q * coinValues c * (8/100))))⟩]⟩) := by
  have hnlt : ¬ b < q := not_lt.mpr hle
  by_cases hfee : 25 ≤ q * coinValues c
  · simp only [apiWithdraw, hfind, hb, jlt, decide_eq_true_eq, if_neg hnlt,
      jmul_num, jge, jsub_num, if_pos hfee]
  · simp only [apiWithdraw, hfind, hb, jlt, decide_eq_true_eq, if_neg hnlt,
      jmul_num, jge, jsub_num, if_neg hfee]

def coinsC8 : Coins := ⟨.num 0, .num 0, .num 0, .num 0, .num (1/100000)⟩

def dbC8 : DB := ⟨[sampleUser 1 coinsC8], []⟩

/-- Witness for C8: the spec's own example — SKA balance `0.00001`,
`withdraw(SKA, 0.00001)` yields `fiatValue = 20 < 25`, `fee = 1.6`,
`received = 18.4`, and the SKA balance is debited to `0`. -/
theorem withdraw_formula_witness :
    (0:ℚ) < 1/100000 ∧ (1:ℚ)/100000 ≤ 1/100000 ∧
    (apiWithdraw dbC8 1 .ska (.num (1/100000)) "bank" "acct").1 =
      .ok ⟨.num (92/5), .num (8/5)⟩ ∧
    (apiWithdraw dbC8 1 .ska (.num (1/100000)) "bank" "acct").2.users =
      [{ sampleUser 1 coinsC8 with
          coins := ⟨.num 0, .num 0, .num 0, .num 0, .num 0⟩ }] := by
  refine ⟨by norm_num, le_refl _, ?_, ?_⟩
  · have h := @withdraw_formula dbC8 1 CoinType.ska (1/100000) (1/100000)
      (sampleUser 1 coinsC8) "bank" "acct" rfl rfl (by norm_num) (le_refl _)
    rw [h]
    norm_num [coinValues]
  · have h := @withdraw_formula dbC8 1 CoinType.ska (1/100000) (1/100000)
      (sampleUser 1 coinsC8) "bank" "acct" rfl rfl (by norm_num) (le_refl _)
    rw [h]
    norm_num [saveUser, dbC8, sampleUser, setCoin, coinsC8]

/-- C9: when `amount` exceeds the staked currency's balance, `POST /api/bet`
fails with `Insufficient balance`, the store is unchanged, and the random
cursor is unchanged — the `Math.random()` draw is evaluated only after the
balance check passes. -/
theorem bet_balanceCheck_first {db : DB} {uid : Nat} {c : CoinType} {q b : ℚ}
    {user : UserAccount} (av : String) (rand : Nat → Bool) (cur : Nat)
    (hfind : findUser db uid = some user)
    (hb : getCoin user.coins c = .num b)
    (hgt : b < q) :
    apiBet db uid c (.num q) av rand cur =
      (.error "Insufficient balance", db, cur) := by
  simp only [apiBet, hfind, hb, jlt, decide_eq_true_eq, if_pos hgt]

def dbC9 : DB := ⟨[sampleUser 1 ⟨.num 1, .num 0, .num 0, .num 0, .num 0⟩], []⟩

/-- Witness for C9: NC balance 1, wager 2 — rejected, store and random
cursor untouched. -/
theorem bet_balanceCheck_first_witness :
    (1:ℚ) < 2 ∧
    apiBet dbC9 1 .nc (.num 2) "" (fun _ => true) 0 =
      (.error "Insufficient balance", dbC9, 0) :=
  ⟨by norm_num,
   @bet_balanceCheck_first dbC9 1 .nc 2 1
     (sampleUser 1 ⟨.num 1, .num 0, .num 0, .num 0, .num 0⟩) "" (fun _ => true) 0
     rfl rfl (by norm_num)⟩

/-- C5: converting `amt` from `A` to `B` (`A ≠ B`, `0 < amt ≤` the `A`
balance, `B` balance `≥ 0`) and converting the received amount back yields
exactly `amt * (1 - 0.006)^2` of `A` — the round trip loses exactly the two
0.6% fee deductions (the rate table is reciprocal), strictly less than the
original `amt`. -/
theorem swap_roundtrip {db : DB} {uid : Nat} {A B : CoinType} {q a b : ℚ}
    {user : UserAccount}
    (hAB : A ≠ B)
    (hfind : findUser db uid = some user)
    (ha : getCoin user.coins A = .num a)
    (hbB : getCoin user.coins B = .num b)
    (hb0 : 0 ≤ b) (hq : 0 < q) (hle : q ≤ a) :
    ∃ res1 res2 : SwapOk,
      (apiSwap db uid A B (.num q)).1 = .ok res1 ∧
      (apiSwap (apiSwap db uid A B (.num q)).2 uid B A res1.received).1 =
        .ok res2 ∧
      res2.received = .num (q * (497/500) ^ 2) ∧
      q * (497/500) ^ 2 < q := by
  obtain ⟨r, hr, hrpos⟩ := exchangeRates_offdiag hAB
  obtain ⟨r2, hr2, hr2pos⟩ := exchangeRates_offdiag (Ne.symm hAB)
  have hrr2 : r * r2 = 1 := by
    have h := exchangeRates_reciprocal A B hAB
    rwa [hr, hr2, Option.getD_some, Option.getD_some] at h
  set x : ℚ := (q - q * transactionFee) * r with hx
  have hxpos : 0 < x := by
    rw [hx, transactionFee]
    nlinarith
  have hnlt1 : jlt (getCoin user.coins A) (.num q) = false := by
    rw [ha]
    simp only [jlt, decide_eq_false_iff_not, not_lt]
    linarith
  have e1 := apiSwap_ok (t := B) hfind hnlt1
  have hrecv1 : swapReceived A B (.num q) = .num x := by
    simp only [swapReceived, hr, jmul_num, jsub_num, hx]
  have hsc : swapCoins user.coins A B (.num q) (.num x) =
      setCoin (setCoin user.coins A (.num (a - q))) B (.num (b + x)) := by
    simp only [swapCoins, ha, jsub_num, getCoin_setCoin,
      if_neg (Ne.symm hAB), hbB, jadd_num]
  rw [hrecv1, hsc] at e1
  set c2 : Coins :=
    setCoin (setCoin user.coins A (.num (a - q))) B (.num (b + x)) with hc2
  set user1 : UserAccount := { user with coins := c2 } with huser1
  have hfind2 : findUser (apiSwap db uid A B (.num q)).2 uid = some user1 := by
    rw [e1]
    exact findUser_saveUser hfind rfl
  have hcoins2B : getCoin user1.coins B = .num (b + x) := by
    rw [huser1]
    show getCoin c2 B = _
    rw [hc2, getCoin_setCoin, if_pos rfl]
  have hnlt2 : jlt (getCoin user1.coins B) (.num x) = false := by
    rw [hcoins2B]
    simp only [jlt, decide_eq_false_iff_not, not_lt]
    linarith
  have e2 := apiSwap_ok (t := A) hfind2 hnlt2
  have hrecv2 : swapReceived B A (.num x) = .num ((x - x * transactionFee) * r2) := by
    simp only [swapReceived, hr2, jmul_num, jsub_num]
  have key : (x - x * transactionFee) * r2 = q * (497/500) ^ 2 := by
    have expand : (x - x * transactionFee) * r2 =
        q * (1 - transactionFee) ^ 2 * (r * r2) := by
      rw [hx]
      ring
    rw [expand, hrr2, transactionFee]
    norm_num
  refine ⟨⟨.num x, jmul (.num q) (.num transactionFee), c2⟩,
    ⟨swapReceived B A (.num x), jmul (.num x) (.num transactionFee),
     swapCoins user1.coins B A (.num x) (swapReceived B A (.num x))⟩,
    ?_, ?_, ?_, ?_⟩
  · rw [e1]
  · show (apiSwap (apiSwap db uid A B (.num q)).2 uid B A (.num x)).1 = _
    rw [e2]
  · show swapReceived B A (.num x) = _
    rw [hrecv2]
    exact congrArg JNum.num key
  · nlinarith

def dbC5 : DB := ⟨[sampleUser 1 ⟨.num 100, .num 0, .num 0, .num 0, .num 0⟩], []⟩

/-- Witness for C5: NC balance 100, `convert(NC, SC, 100)` then converting
the received amount back yields `100 * 0.994^2 < 100` of NC. -/
theorem swap_roundtrip_witness :
    CoinType.nc ≠ CoinType.sc ∧ (0:ℚ) < 100 ∧
    (∃ res1 res2 : SwapOk,
      (apiSwap dbC5 1 .nc .sc (.num 100)).1 = .ok res1 ∧
      (apiSwap (apiSwap dbC5 1 .nc .sc (.num 100)).2 1 .sc .nc
        res1.received).1 = .ok res2 ∧
      res2.received = .num (100 * (497/500) ^ 2) ∧
      (100:ℚ) * (497/500) ^ 2 < 100) :=
  ⟨by decide, by norm_num,
   @swap_roundtrip dbC5 1 .nc .sc 100 100 0
     (sampleUser 1 ⟨.num 100, .num 0, .num 0, .num 0, .num 0⟩)
     (by decide) rfl rfl rfl le_rfl (by norm_num) le_rfl⟩

/-- C1 (amended): starting from a store whose balances are all nonnegative,
any sequence of engine operations keeps every balance of every user `≥ 0`,
provided each swap/bet/withdraw amount is a positive finite number, each
swap uses two distinct currencies, and each raw coin update
(`POST /api/user/:userId/coins`) has a nonnegative amount.  (Quantifying
over all sequences covers every observable intermediate state, as every
prefix is itself such a sequence.)  The original claim, with the raw coin
update (or a non-positive or same-currency amount) unrestricted, is false:
see the counterexample. -/
theorem balances_nonneg (rand : Nat → Bool) (ops : List Op) (s : DB × Nat)
    (h : DBNonneg s.1) (hops : ∀ op ∈ ops, ValidOp op) :
    DBNonneg (runOps rand s ops).1 :=
  dbNonneg_runOps rand ops s h hops

def dbC1 : DB := ⟨[sampleUser 1 ⟨.num 0, .num 0, .num 0, .num 0, .num 0⟩], []⟩

/-- Counterexample to C1 as stated: a single coin update of `-1` applied to
a zero balance leaves the account's NC balance at `-1 < 0` — the
`POST /api/user/:userId/coins` endpoint `$inc`s without any check. -/
theorem balances_nonneg_cex :
    ¬ DBNonneg (runOps (fun _ => false) (dbC1, 0)
      [.coinsOp 1 .nc (.num (-1))]).1 := by
  have e : (runOps (fun _ => false) (dbC1, 0) [.coinsOp 1 .nc (.num (-1))]).1 =
      ⟨[{ sampleUser 1 ⟨.num 0, .num 0, .num 0, .num 0, .num 0⟩ with
          coins := ⟨.num (0 + -1), .num 0, .num 0, .num 0, .num 0⟩ }], []⟩ := rfl
  rw [e]
  intro h
  have h2 := (h _ (List.mem_singleton.mpr rfl)).1
  have h3 : ¬ (0:ℚ) ≤ 0 + -1 := by norm_num
  exact h3 h2

def dbW1 : DB := ⟨[sampleUser 1 ⟨.num 2, .num 0, .num 0, .num 0, .num 0⟩], []⟩

/-- Witness for the amended C1: one losing NC bet of 1 against balance 2
keeps all balances nonnegative. -/
theorem balances_nonneg_witness :
    DBNonneg dbW1 ∧ (∀ op ∈ [Op.betOp 1 .nc (.num 1) ""], ValidOp op) ∧
    DBNonneg (runOps (fun _ => false) (dbW1, 0) [Op.betOp 1 .nc (.num 1) ""]).1 :=
  ⟨by decide, by decide,
   balances_nonneg (fun _ => false) [Op.betOp 1 .nc (.num 1) ""] (dbW1, 0)
     (by decide) (by decide)⟩

theorem apiBet_ok_win {db : DB} {uid : Nat} {c : CoinType}
    {user : UserAccount} {amount : JNum} (av : String)
    {rand : Nat → Bool} {cur : Nat}
    (hfind : findUser db uid = some user)
    (hnlt : jlt (getCoin user.coins c) amount = false)
    (hwin : rand cur = true) :
    apiBet db uid c amount av rand cur =
      (.ok ⟨true, jmul amount (.num (18/10)), setCoin user.coins c
          (jadd (getCoin user.coins c) (jmul amount (.num (18/10))))⟩,
       ⟨saveUser db.users
          { user with
            coins := setCoin user.coins c
              (jadd (getCoin user.coins c) (jmul amount (.num (18/10)))) },
        db.transactions ++ [⟨uid, "bet",
          .betD c amount av true (jmul amount (.num (18/10)))⟩]⟩,
       cur + 1) := by
  simp only [apiBet, hfind, hnlt, Bool.false_eq_true, if_false, hwin, if_true]

theorem apiBet_ok_loss {db : DB} {uid : Nat} {c : CoinType}
    {user : UserAccount} {amount : JNum} (av : String)
    {rand : Nat → Bool} {cur : Nat}
    (hfind : findUser db uid = some user)
    (hnlt : jlt (getCoin user.coins c) amount = false)
    (hwin : rand cur = false) :
    apiBet db uid c amount av rand cur =
      (.ok ⟨false, jsub (.num 0) amount, setCoin user.coins c
          (jsub (getCoin user.coins c) amount)⟩,
       ⟨saveUser db.users
          { user with
            coins := setCoin user.coins c
              (jsub (getCoin user.coins c) amount) },
        db.transactions ++ [⟨uid, "bet",
          .betD c amount av false (jsub (.num 0) amount)⟩]⟩,
       cur + 1) := by
  simp only [apiBet, hfind, hnlt, Bool.false_eq_true, if_false, hwin]

theorem apiWithdraw_ok {db : DB} {uid : Nat} {c : CoinType}
    {user : UserAccount} {amount : JNum} {m d : String}
    (hfind : findUser db uid = some user)
    (hnlt : jlt (getCoin user.coins c) amount = false) :
    apiWithdraw db uid c amount m d =
      (.ok ⟨jsub (jmul amount (.num (coinValues c)))
          (if jge (jmul amount (.num (coinValues c))) 25 then .num 2
            else jmul (jmul amount (.num (coinValues c))) (.num (8/100))),
        if jge (jmul amount (.num (coinValues c))) 25 then .num 2
          else jmul (jmul amount (.num (coinValues c))) (.num (8/100))⟩,
       ⟨saveUser db.users
          { user with
            coins := setCoin user.coins c
              (jsub (getCoin user.coins c) amount) },
        db.transactions ++ [⟨uid, "withdrawal",
          .withdrawalD c amount m d (jmul amount (.num (coinValues c)))
            (if jge (jmul amount (.num (coinValues c))) 25 then .num 2
              else jmul (jmul amount (.num (coinValues c))) (.num (8/100)))
            (jsub (jmul amount (.num (coinValues c)))
              (if jge (jmul amount (.num (coinValues c))) 25 then .num 2
                else jmul (jmul amount (.num (coinValues c)))
                  (.num (8/100))))⟩]⟩) := by
  simp only [apiWithdraw, hfind, hnlt, Bool.false_eq_true, if_false]

theorem apiReferral_ok {db : DB} {uid : Nat} {code : String}
    {referrer user : UserAccount}
    (hrefr : findByReferralCode db code = some referrer)
    (hfind : findUser db uid = some user)
    (htr : strTruthy user.referredBy = false) :
    apiReferral db uid code =
      (.ok (.num referralBonus),
       ⟨applyReferrerBonus
          (saveUser db.users { user with referredBy := some code }) referrer,
        db.transactions ++ [⟨referrer.userId, "referral",
          .referralD uid (.num referralBonus)⟩]⟩) := by
  simp only [apiReferral, hrefr, hfind, htr, Bool.false_eq_true, if_false]

/-- C3 (amended): none of `POST /api/swap`, `POST /api/bet`,
`POST /api/withdraw` performs any amount validation — there is no
`InvalidAmount` error.  A non-positive amount passes the only pre-mutation
check (the insufficient-balance comparison, which is false for a
nonnegative balance versus a non-positive amount) and the call succeeds. -/
theorem no_amount_validation :
    (∀ (db : DB) (uid : Nat) (f t : CoinType) (q b : ℚ) (user : UserAccount),
      findUser db uid = some user → getCoin user.coins f = .num b →
      q ≤ 0 → 0 ≤ b →
      ∃ res, (apiSwap db uid f t (.num q)).1 = .ok res) ∧
    (∀ (db : DB) (uid : Nat) (c : CoinType) (q b : ℚ) (user : UserAccount)
        (av : String) (rand : Nat → Bool) (cur : Nat),
      findUser db uid = some user → getCoin user.coins c = .num b →
      q ≤ 0 → 0 ≤ b →
      ∃ res, (apiBet db uid c (.num q) av rand cur).1 = .ok res) ∧
    (∀ (db : DB) (uid : Nat) (c : CoinType) (q b : ℚ) (user : UserAccount)
        (m d : String),
      findUser db uid = some user → getCoin user.coins c = .num b →
      q ≤ 0 → 0 ≤ b →
      ∃ res, (apiWithdraw db uid c (.num q) m d).1 = .ok res) := by
  refine ⟨?_, ?_, ?_⟩
  · intro db uid f t q b user hfind hb hq hb0
    have hnlt : jlt (getCoin user.coins f) (.num q) = false := by
      rw [hb]
      simp only [jlt, decide_eq_false_iff_not, not_lt]
      linarith
    exact ⟨_, by rw [apiSwap_ok (t := t) hfind hnlt]⟩
  · intro db uid c q b user av rand cur hfind hb hq hb0
    have hnlt : jlt (getCoin user.coins c) (.num q) = false := by
      rw [hb]
      simp only [jlt, decide_eq_false_iff_not, not_lt]
      linarith
    cases hwin : rand cur with
    | true => exact ⟨_, by rw [apiBet_ok_win av hfind hnlt hwin]⟩
    | false => exact ⟨_, by rw [apiBet_ok_loss av hfind hnlt hwin]⟩
  · intro db uid c q b user m d hfind hb hq hb0
    have hnlt : jlt (getCoin user.coins c) (.num q) = false := by
      rw [hb]
      simp only [jlt, decide_eq_false_iff_not, not_lt]
      linarith
    exact ⟨_, by rw [apiWithdraw_ok hfind hnlt]⟩

def dbC3 : DB := ⟨[sampleUser 1 ⟨.num 0, .num 0, .num 0, .num 0, .num 0⟩], []⟩

/-- Counterexample to C3 as stated: `swap(NC, SC, -1)` on zero balances does
not fail with any `InvalidAmount` error — it succeeds, credits the NC
balance by 1 (`0 - -1`), and pushes the SC balance negative. -/
theorem no_amount_validation_cex :
    (apiSwap dbC3 1 .nc .sc (.num (-1))).1 =
      .ok ⟨.num ((-1 - -1 * transactionFee) * 10), .num (-1 * transactionFee),
        ⟨.num (0 - -1), .num (0 + (-1 - -1 * transactionFee) * 10),
         .num 0, .num 0, .num 0⟩⟩ ∧
    (∃ u, (apiSwap dbC3 1 .nc .sc (.num (-1))).2.users = [u] ∧
      getCoin u.coins .nc = .num (0 - -1)) ∧
    (JNum.num (0 - -1) : JNum) ≠ .num 0 := by
  refine ⟨rfl, ⟨_, rfl, rfl⟩, ?_⟩
  intro h
  injection h with h2
  norm_num at h2

/-- Witness for the amended C3: `swap(NC, SC, -1)` on a zero balance is
accepted. -/
theorem no_amount_validation_witness :
    (-1:ℚ) ≤ 0 ∧ (0:ℚ) ≤ 0 ∧
    (∃ res, (apiSwap dbC3 1 .nc .sc (.num (-1))).1 = .ok res) :=
  ⟨by norm_num, le_rfl,
   no_amount_validation.1 dbC3 1 .nc .sc (-1) 0
     (sampleUser 1 ⟨.num 0, .num 0, .num 0, .num 0, .num 0⟩)
     rfl rfl (by norm_num) le_rfl⟩

theorem exchangeRates_diag (c : CoinType) : exchangeRates c c = none := by
  cases c <;> rfl

theorem jmul_nan (x : JNum) : jmul x .nan = .nan := by cases x <;> rfl

theorem jadd_nan (x : JNum) : jadd x .nan = .nan := by cases x <;> rfl

theorem setCoin_setCoin (c : Coins) (t : CoinType) (v w : JNum) :
    setCoin (setCoin c t v) t w = setCoin c t w := by cases t <;> rfl

/-- C4 (amended): same-currency conversion is not guarded, but the rate
table has no diagonal entry (`exchangeRates[c][c]` is `undefined`), so for
`0 < amount ≤ balance` the call succeeds with `received = NaN` and leaves
the currency's balance NaN — not the claimed net fee loss of
`amount * 0.006`. -/
theorem same_currency_swap_nan {db : DB} {uid : Nat} {c : CoinType} {q b : ℚ}
    {user : UserAccount}
    (hfind : findUser db uid = some user)
    (hb : getCoin user.coins c = .num b)
    (hq : 0 < q) (hle : q ≤ b) :
    (apiSwap db uid c c (.num q)).1 =
      .ok ⟨.nan, jmul (.num q) (.num transactionFee),
        setCoin user.coins c .nan⟩ ∧
    (apiSwap db uid c c (.num q)).2.users =
      saveUser db.users { user with coins := setCoin user.coins c .nan } := by
  have hnlt : jlt (getCoin user.coins c) (.num q) = false := by
    rw [hb]
    simp only [jlt, decide_eq_false_iff_not, not_lt]
    linarith
  have e := apiSwap_ok (t := c) hfind hnlt
  have hrecv : swapReceived c c (.num q) = .nan := by
    simp only [swapReceived, exchangeRates_diag, jmul_nan]
  have hsc : swapCoins user.coins c c (.num q) .nan = setCoin user.coins c .nan := by
    simp only [swapCoins, getCoin_setCoin, if_pos rfl, jadd_nan, setCoin_setCoin]
  rw [hrecv, hsc] at e
  exact ⟨by rw [e], by rw [e]⟩

def dbC4 : DB := ⟨[sampleUser 1 ⟨.num 100, .num 0, .num 0, .num 0, .num 0⟩], []⟩

/-- Counterexample to C4 as stated: `swap(NC, NC, 50)` on NC balance 100
succeeds but returns `received = NaN` and leaves the NC balance NaN — not
`received = 50 * (1 - 0.006)` with a net balance of `100 - 50 * 0.006`. -/
theorem same_currency_swap_cex :
    (apiSwap dbC4 1 .nc .nc (.num 50)).1 =
      .ok ⟨.nan, .num (50 * transactionFee),
        ⟨.nan, .num 0, .num 0, .num 0, .num 0⟩⟩ ∧
    (JNum.nan : JNum) ≠ .num (50 * (1 - transactionFee)) ∧
    (JNum.nan : JNum) ≠ .num (100 - 50 * transactionFee) := by
  exact ⟨rfl, fun h => JNum.noConfusion h, fun h => JNum.noConfusion h⟩

/-- Witness for the amended C4: `swap(NC, NC, 50)` on NC balance 100. -/
theorem same_currency_swap_nan_witness :
    (0:ℚ) < 50 ∧ (50:ℚ) ≤ 100 ∧
    (apiSwap dbC4 1 .nc .nc (.num 50)).1 =
      .ok ⟨.nan, jmul (.num 50) (.num transactionFee),
        setCoin (sampleUser 1 ⟨.num 100, .num 0, .num 0, .num 0, .num 0⟩).coins
          .nc .nan⟩ :=
  ⟨by norm_num, by norm_num,
   (@same_currency_swap_nan dbC4 1 .nc 50 100
     (sampleUser 1 ⟨.num 100, .num 0, .num 0, .num 0, .num 0⟩)
     rfl rfl (by norm_num) (by norm_num)).1⟩

/-- C7 (amended/corrected): `POST /api/referral` has no self-referral
guard: when the supplied code resolves to the acting user's own account and
that user's `referredBy` is unset, the call succeeds, binds `referredBy` to
the user's own code, and credits the NC bonus to the same account. -/
theorem self_referral_allowed {db : DB} {uid : Nat} {user : UserAccount}
    (hfind : findUser db uid = some user)
    (hown : findByReferralCode db user.referralCode = some user)
    (hnotref : user.referredBy = none) :
    (apiReferral db uid user.referralCode).1 = .ok (.num referralBonus) ∧
    ∃ v ∈ (apiReferral db uid user.referralCode).2.users,
      v.userId = uid ∧ v.referredBy = some user.referralCode ∧
      getCoin v.coins .nc = jadd (getCoin user.coins .nc) (.num referralBonus) := by
  have htr : strTruthy user.referredBy = false := by rw [hnotref]; rfl
  have e := apiReferral_ok hown hfind htr
  constructor
  · rw [e]
  · rw [e]
    simp only [applyReferrerBonus, saveUser]
    refine ⟨_, List.mem_map.mpr ⟨_, List.mem_map.mpr
      ⟨user, mem_of_findUser hfind, rfl⟩, rfl⟩, ?_, ?_, ?_⟩
    · simp only [beq_self_eq_true, if_true]
      exact userId_of_findUser hfind
    · simp only [beq_self_eq_true, if_true]
    · simp only [beq_self_eq_true, if_true, getCoin_setCoin, if_pos rfl]

def dbC7 : DB := ⟨[sampleUser 1 ⟨.num 0, .num 0, .num 0, .num 0, .num 0⟩], []⟩

/-- Counterexample to C7 as stated: user 1 applies their own referral code
`5COIN-1` — instead of being rejected, the call succeeds, sets
`referredBy` to the user's own code (a mutation) and self-credits the NC
bonus. -/
theorem self_referral_cex :
    (apiReferral dbC7 1 (mkReferralCode 1)).1 = .ok (.num referralBonus) ∧
    (∃ v, (apiReferral dbC7 1 (mkReferralCode 1)).2.users = [v] ∧
      v.referredBy = some (mkReferralCode 1) ∧
      getCoin v.coins .nc = .num (0 + referralBonus)) ∧
    some (mkReferralCode 1) ≠ (none : Option String) := by
  exact ⟨rfl, ⟨_, rfl, rfl, rfl⟩, fun h => Option.noConfusion h⟩

/-- Witness for the amended C7: concrete self-referral on store `dbC7`. -/
theorem self_referral_allowed_witness :
    (sampleUser 1 ⟨.num 0, .num 0, .num 0, .num 0, .num 0⟩).referredBy = none ∧
    (apiReferral dbC7 1
      (sampleUser 1 ⟨.num 0, .num 0, .num 0, .num 0, .num 0⟩).referralCode).1 =
      .ok (.num referralBonus) :=
  ⟨rfl,
   (@self_referral_allowed dbC7 1
     (sampleUser 1 ⟨.num 0, .num 0, .num 0, .num 0, .num 0⟩) rfl rfl rfl).1⟩

def dbC2 : DB := ⟨[sampleUser 1 ⟨.num 0, .num 0, .num 50, .num 0, .num 0⟩], []⟩

/-- C2 (code evaluated at the failing input): with GC balance 50 and a
forced winning draw, `bet(GC, 50)` credits `50 * 1.8` WITHOUT debiting the
stake: the new balance is `50 + 50 * 1.8 = 140`, not the claimed
`old + 0.8 * amount = 90` — even though the source's own comment on that
line says `// 80% profit on win`. -/
theorem bet_win_not_debited :
    (apiBet dbC2 1 .gc (.num 50) "" (fun _ => true) 0).1 =
      .ok ⟨true, .num (50 * (18/10)),
        ⟨.num 0, .num 0, .num (50 + 50 * (18/10)), .num 0, .num 0⟩⟩ ∧
    (50:ℚ) + 50 * (18/10) = 140 ∧
    ((50:ℚ) + 50 * (18/10)) ≠ 50 + 50 * (8/10) := by
  exact ⟨rfl, by norm_num, by norm_num⟩

/-- C10: during `/start` onboarding, a referral code that resolves to no
existing account is silently ignored — the new user is still created with
`referredBy` unset, no bonus is paid, no transaction is appended, and the
reply is the normal welcome (no error) — whereas `POST /api/referral` on
the very same store and code returns the typed `Invalid referral code`
error. -/
theorem start_unknown_code_ignored {db : DB} {uid : Nat}
    {un fn ln : Option String} {code : String}
    (hnew : findUser db uid = none)
    (hnone : findByReferralCode db code = none) :
    botStart db uid un fn ln (some code) =
      (.welcomeNew (mkReferralCode uid),
       ⟨db.users ++
         [{ userId := uid, username := un, firstName := fn,
            lastName := ln, referralCode := mkReferralCode uid,
            referredBy := none,
            coins := ⟨.num 0, .num 0, .num 0, .num 0, .num 0⟩,
            referrals := .num 0, earned := .num 0 }], db.transactions⟩) ∧
    (apiReferral db uid code).1 = .error "Invalid referral code" ∧
    (apiReferral db uid code).2 = db := by
  refine ⟨?_, ?_, ?_⟩
  · cases hemp : code.isEmpty with
    | true =>
      simp only [botStart, hnew, strTruthy, hemp, Bool.not_true,
        Bool.false_eq_true, if_false]
    | false =>
      simp only [botStart, hnew, strTruthy, hemp, Bool.not_false, if_true, hnone]
  · simp only [apiReferral, hnone]
  · simp only [apiReferral, hnone]

def dbC10 : DB := ⟨[sampleUser 1 ⟨.num 3, .num 0, .num 0, .num 0, .num 0⟩], []⟩

/-- Witness for C10: user 2 starts with unknown code `NOPE` — account
created with `referredBy` unset, store otherwise untouched, no transaction;
`POST /api/referral` with the same code errors instead. -/
theorem start_unknown_code_ignored_witness :
    findUser dbC10 2 = none ∧ findByReferralCode dbC10 "NOPE" = none ∧
    botStart dbC10 2 none none none (some "NOPE") =
      (.welcomeNew (mkReferralCode 2),
       ⟨dbC10.users ++
         [{ userId := 2, username := none, firstName := none,
            lastName := none, referralCode := mkReferralCode 2,
            referredBy := none,
            coins := ⟨.num 0, .num 0, .num 0, .num 0, .num 0⟩,
            referrals := .num 0, earned := .num 0 }], dbC10.transactions⟩) :=
  ⟨rfl, rfl, (@start_unknown_code_ignored dbC10 2 none none none "NOPE" rfl rfl).1⟩

/-- C6 (amended): every successful mutating API call (`swap`, `bet`,
`withdraw`, `referral`) appends exactly one transaction whose details carry
the operation's applied amounts, and every failure path of those calls
leaves the store — in particular the transaction log — completely unchanged
(no orphaned transaction); but the referral payout performed inside
`/start` onboarding appends NO transaction while still mutating the
referrer's balance (and `/start` never appends a transaction at all). -/
theorem tx_ledger :
    (∀ (db : DB) (uid : Nat) (f t : CoinType) (a : JNum) (res : SwapOk),
      (apiSwap db uid f t a).1 = .ok res →
      (apiSwap db uid f t a).2.transactions =
        db.transactions ++ [⟨uid, "swap", .swapD f t a res.received res.fee⟩]) ∧
    (∀ (db : DB) (uid : Nat) (c : CoinType) (a : JNum) (av : String)
        (rand : Nat → Bool) (cur : Nat) (res : BetOk),
      (apiBet db uid c a av rand cur).1 = .ok res →
      (apiBet db uid c a av rand cur).2.1.transactions =
        db.transactions ++ [⟨uid, "bet", .betD c a av res.win res.resultAmount⟩]) ∧
    (∀ (db : DB) (uid : Nat) (c : CoinType) (a : JNum) (m d : String)
        (res : WithdrawOk),
      (apiWithdraw db uid c a m d).1 = .ok res →
      (apiWithdraw db uid c a m d).2.transactions =
        db.transactions ++ [⟨uid, "withdrawal",
          .withdrawalD c a m d (jmul a (.num (coinValues c)))
            res.fee res.received⟩]) ∧
    (∀ (db : DB) (uid : Nat) (code : String) (bonus : JNum),
      (apiReferral db uid code).1 = .ok bonus →
      ∃ referrer, findByReferralCode db code = some referrer ∧
        (apiReferral db uid code).2.transactions =
          db.transactions ++ [⟨referrer.userId, "referral",
            .referralD uid (.num referralBonus)⟩]) ∧
    (∀ (db : DB) (uid : Nat) (un fn ln : Option String)
        (refCode : Option String),
      (botStart db uid un fn ln refCode).2.transactions = db.transactions) ∧
    (∀ (db : DB) (uid : Nat) (un fn ln : Option String) (code : String)
        (referrer : UserAccount),
      findUser db uid = none → code.isEmpty = false →
      findByReferralCode db code = some referrer →
      ∃ v ∈ (botStart db uid un fn ln (some code)).2.users,
        v.userId = referrer.userId ∧
        getCoin v.coins .nc =
          jadd (getCoin referrer.coins .nc) (.num referralBonus)) ∧
    (∀ (db : DB) (uid : Nat) (f t : CoinType) (a : JNum) (msg : String),
      (apiSwap db uid f t a).1 = .error msg →
      (apiSwap db uid f t a).2 = db) ∧
    (∀ (db : DB) (uid : Nat) (c : CoinType) (a : JNum) (av : String)
        (rand : Nat → Bool) (cur : Nat) (msg : String),
      (apiBet db uid c a av rand cur).1 = .error msg →
      (apiBet db uid c a av rand cur).2 = (db, cur)) ∧
    (∀ (db : DB) (uid : Nat) (c : CoinType) (a : JNum) (m d : String)
        (msg : String),
      (apiWithdraw db uid c a m d).1 = .error msg →
      (apiWithdraw db uid c a m d).2 = db) ∧
    (∀ (db : DB) (uid : Nat) (code : String) (msg : String),
      (apiReferral db uid code).1 = .error msg →
      (apiReferral db uid code).2 = db) := by
  refine ⟨?_, ?_, ?_, ?_, ?_, ?_, ?_, ?_, ?_, ?_⟩
  · intro db uid f t a res hok
    rcases hfind : findUser db uid with _ | user
    · simp only [apiSwap, hfind] at hok
      exact Except.noConfusion hok
    · cases hnlt : jlt (getCoin user.coins f) a with
      | true =>
        simp only [apiSwap, hfind, hnlt, eq_self_iff_true, if_true] at hok
        exact Except.noConfusion hok
      | false =>
        have e := apiSwap_ok (t := t) hfind hnlt
        have h1 : (apiSwap db uid f t a).1 = .ok ⟨swapReceived f t a,
            jmul a (.num transactionFee),
            swapCoins user.coins f t a (swapReceived f t a)⟩ := by rw [e]
        rw [h1] at hok
        injection hok with h2
        subst h2
        rw [e]
  · intro db uid c a av rand cur res hok
    rcases hfind : findUser db uid with _ | user
    · simp only [apiBet, hfind] at hok
      exact Except.noConfusion hok
    · cases hnlt : jlt (getCoin user.coins c) a with
      | true =>
        simp only [apiBet, hfind, hnlt, eq_self_iff_true, if_true] at hok
        exact Except.noConfusion hok
      | false =>
        cases hwin : rand cur with
        | true =>
          have e := apiBet_ok_win av hfind hnlt hwin
          have h1 : (apiBet db uid c a av rand cur).1 = .ok ⟨true,
              jmul a (.num (18/10)), setCoin user.coins c
                (jadd (getCoin user.coins c) (jmul a (.num (18/10))))⟩ := by
            rw [e]
          rw [h1] at hok
          injection hok with h2
          subst h2
          rw [e]
        | false =>
          have e := apiBet_ok_loss av hfind hnlt hwin
          have h1 : (apiBet db uid c a av rand cur).1 = .ok ⟨false,
              jsub (.num 0) a, setCoin user.coins c
                (jsub (getCoin user.coins c) a)⟩ := by
            rw [e]
          rw [h1] at hok
          injection hok with h2
          subst h2
          rw [e]
  · intro db uid c a m d res hok
    rcases hfind : findUser db uid with _ | user
    · simp only [apiWithdraw, hfind] at hok
      exact Except.noConfusion hok
    · cases hnlt : jlt (getCoin user.coins c) a with
      | true =>
        simp only [apiWithdraw, hfind, hnlt, eq_self_iff_true, if_true] at hok
        exact Except.noConfusion hok
      | false =>
        have e := apiWithdraw_ok (m := m) (d := d) hfind hnlt
        have h1 : (apiWithdraw db uid c a m d).1 = .ok
            ⟨jsub (jmul a (.num (coinValues c)))
              (if jge (jmul a (.num (coinValues c))) 25 then .num 2
                else jmul (jmul a (.num (coinValues c))) (.num (8/100))),
             if jge (jmul a (.num (coinValues c))) 25 then .num 2
               else jmul (jmul a (.num (coinValues c))) (.num (8/100))⟩ := by
          rw [e]
        rw [h1] at hok
        injection hok with h2
        subst h2
        rw [e]
  · intro db uid code bonus hok
    rcases hrefr : findByReferralCode db code with _ | referrer
    · simp only [apiReferral, hrefr] at hok
      exact Except.noConfusion hok
    · refine ⟨referrer, rfl, ?_⟩
      rcases hfind : findUser db uid with _ | user
      · simp only [apiReferral, hrefr, hfind] at hok
        exact Except.noConfusion hok
      · cases htr : strTruthy user.referredBy with
        | true =>
          simp only [apiReferral, hrefr, hfind, htr, eq_self_iff_true,
            if_true] at hok
          exact Except.noConfusion hok
        | false =>
          have e := apiReferral_ok hrefr hfind htr
          rw [e]
  · intro db uid un fn ln refCode
    rcases hfind : findUser db uid with _ | user
    · simp only [botStart, hfind]
    · simp only [botStart, hfind]
  · intro db uid un fn ln code referrer hnew hemp hrefr
    simp only [botStart, hnew, strTruthy, hemp, Bool.not_false, if_true, hrefr]
    refine ⟨_, List.mem_append_left _ (List.mem_map.mpr
      ⟨referrer, mem_of_findByReferralCode hrefr, rfl⟩), ?_, ?_⟩
    · simp only [beq_self_eq_true, if_true]
    · simp only [beq_self_eq_true, if_true, getCoin_setCoin, if_pos rfl]
  · intro db uid f t a msg herr
    rcases hfind : findUser db uid with _ | user
    · simp only [apiSwap, hfind]
    · cases hnlt : jlt (getCoin user.coins f) a with
      | true => simp only [apiSwap, hfind, hnlt, eq_self_iff_true, if_true]
      | false =>
        have h1 : (apiSwap db uid f t a).1 = .ok ⟨swapReceived f t a,
            jmul a (.num transactionFee),
            swapCoins user.coins f t a (swapReceived f t a)⟩ := by
          rw [apiSwap_ok (t := t) hfind hnlt]
        rw [h1] at herr
        exact Except.noConfusion herr
  · intro db uid c a av rand cur msg herr
    rcases hfind : findUser db uid with _ | user
    · simp only [apiBet, hfind]
    · cases hnlt : jlt (getCoin user.coins c) a with
      | true => simp only [apiBet, hfind, hnlt, eq_self_iff_true, if_true]
      | false =>
        cases hwin : rand cur with
        | true =>
          have h1 : (apiBet db uid c a av rand cur).1 = .ok ⟨true,
              jmul a (.num (18/10)), setCoin user.coins c
                (jadd (getCoin user.coins c) (jmul a (.num (18/10))))⟩ := by
            rw [apiBet_ok_win av hfind hnlt hwin]
          rw [h1] at herr
          exact Except.noConfusion herr
        | false =>
          have h1 : (apiBet db uid c a av rand cur).1 = .ok ⟨false,
              jsub (.num 0) a, setCoin user.coins c
                (jsub (getCoin user.coins c) a)⟩ := by
            rw [apiBet_ok_loss av hfind hnlt hwin]
          rw [h1] at herr
          exact Except.noConfusion herr
  · intro db uid c a m d msg herr
    rcases hfind : findUser db uid with _ | user
    · simp only [apiWithdraw, hfind]
    · cases hnlt : jlt (getCoin user.coins c) a with
      | true => simp only [apiWithdraw, hfind, hnlt, eq_self_iff_true, if_true]
      | false =>
        have h1 : (apiWithdraw db uid c a m d).1 = .ok
            ⟨jsub (jmul a (.num (coinValues c)))
              (if jge (jmul a (.num (coinValues c))) 25 then .num 2
                else jmul (jmul a (.num (coinValues c))) (.num (8/100))),
             if jge (jmul a (.num (coinValues c))) 25 then .num 2
               else jmul (jmul a (.num (coinValues c))) (.num (8/100))⟩ := by
          rw [apiWithdraw_ok (m := m) (d := d) hfind hnlt]
        rw [h1] at herr
        exact Except.noConfusion herr
  · intro db uid code msg herr
    rcases hrefr : findByReferralCode db code with _ | referrer
    · simp only [apiReferral, hrefr]
    · rcases hfind : findUser db uid with _ | user
      · simp only [apiReferral, hrefr, hfind]
      · cases htr : strTruthy user.referredBy with
        | true =>
          simp only [apiReferral, hrefr, hfind, htr, eq_self_iff_true, if_true]
        | false =>
          have h1 : (apiReferral db uid code).1 = .ok (.num referralBonus) := by
            rw [apiReferral_ok hrefr hfind htr]
          rw [h1] at herr
          exact Except.noConfusion herr

def dbC6 : DB := ⟨[sampleUser 1 ⟨.num 0, .num 0, .num 0, .num 0, .num 0⟩], []⟩

/-- Counterexample to C6 as stated: `/start` onboarding of user 2 with the
valid referral code `5COIN-1` credits the referrer's NC balance
(`0 + 0.0005 ≠ 0`) yet appends NO transaction — a referral-bonus balance
mutation without a corresponding Transaction record. -/
theorem tx_ledger_cex :
    (botStart dbC6 2 none none none (some (mkReferralCode 1))).2.transactions
      = [] ∧
    (∃ v rest,
      (botStart dbC6 2 none none none (some (mkReferralCode 1))).2.users =
        v :: rest ∧
      getCoin v.coins .nc = .num (0 + referralBonus)) ∧
    (JNum.num (0 + referralBonus) : JNum) ≠ .num 0 := by
  refine ⟨rfl, ⟨_, _, rfl, rfl⟩, ?_⟩
  intro h
  injection h with h2
  norm_num [referralBonus] at h2

def dbW6 : DB := ⟨[sampleUser 1 ⟨.num 10, .num 0, .num 0, .num 0, .num 0⟩], []⟩

/-- Witness for the amended C6: a losing NC bet of 5 against balance 10
appends exactly the one matching bet transaction. -/
theorem tx_ledger_witness :
    (apiBet dbW6 1 .nc (.num 5) "" (fun _ => false) 0).1 =
      .ok ⟨false, .num (0 - 5),
        ⟨.num (10 - 5), .num 0, .num 0, .num 0, .num 0⟩⟩ ∧
    (apiBet dbW6 1 .nc (.num 5) "" (fun _ => false) 0).2.1.transactions =
      [] ++ [⟨1, "bet", .betD .nc (.num 5) "" false (.num (0 - 5))⟩] :=
  ⟨rfl, tx_ledger.2.1 dbW6 1 .nc (.num 5) "" (fun _ => false) 0
    ⟨false, .num (0 - 5), ⟨.num (10 - 5), .num 0, .num 0, .num 0, .num 0⟩⟩ rfl⟩
